import Mathlib

/-!
Verification of the `git_report` commit-history reporting engine
(`src/git_report/{data,git_report,plotters,exporters}.py`) against its
natural-language specification.

The Python code is shallowly embedded: pure functions become Lean
functions, Python exceptions become `Except PyError`, dictionaries become
insertion-ordered association lists, and the external subprocess call is
an explicit input (`SubprocResult`).  Calendar arithmetic (`datetime`,
`timedelta`, `relativedelta`, `date.isocalendar`) is modelled on a
`Date` record of year/month/day in the proleptic Gregorian calendar,
exactly the semantics of Python's `datetime.date`.
-/

namespace GitReport

/-- Python exceptions distinguished by the unit tests of the repository:
`ValueError msg` (with its message) and `AttributeError`
(e.g. calling a method on `None`). -/
inductive PyError where
  | valueError (msg : String)
  | attributeError
deriving DecidableEq

instance {ε α : Type} [DecidableEq ε] [DecidableEq α] : DecidableEq (Except ε α)
  | Except.ok a, Except.ok b => decidable_of_iff (a = b) (by simp)
  | Except.error a, Except.error b => decidable_of_iff (a = b) (by simp)
  | Except.ok _, Except.error _ => isFalse (fun h => by cases h)
  | Except.error _, Except.ok _ => isFalse (fun h => by cases h)

/-- The `Period` enumeration of `data.py` (named `PeriodType` in the
identical copy inside `git_report.py`): DAY, WEEK, MONTH. -/
inductive Period where
  | DAY
  | WEEK
  | MONTH
deriving DecidableEq

/-- The `Commit` dataclass of `data.py` / `git_report.py`. -/
structure Commit where
  repo_name : String
  hash : String
  author : String
  date : String
  subject : String
deriving DecidableEq

/-- Commit lists, `type Commits = list[Commit]`. -/
abbrev Commits := List Commit

/- ## Gregorian calendar model (semantics of Python `datetime.date`) -/

/-- A calendar date: year, month, day, all 1-based. -/
structure Date where
  y : Nat
  m : Nat
  d : Nat
deriving DecidableEq

/-- 1 in a Gregorian leap year, 0 otherwise, the rule implemented by
`datetime.date`. -/
def leapBit (y : Nat) : Nat :=
  if (y % 4 = 0 ∧ ¬ y % 100 = 0) ∨ y % 400 = 0 then 1 else 0

/-- Days in month `m` of a common (non-leap) year; 0 outside 1..12. -/
def dimBase (m : Nat) : Nat :=
  match m with
  | 1 => 31 | 2 => 28 | 3 => 31 | 4 => 30 | 5 => 31 | 6 => 30
  | 7 => 31 | 8 => 31 | 9 => 30 | 10 => 31 | 11 => 30 | 12 => 31
  | _ => 0

/-- Days in month `m` of year `y`. -/
def dim (y m : Nat) : Nat := dimBase m + (if m = 2 then leapBit y else 0)

/-- Cumulative days before month `m` in a common year; 0 outside 1..12. -/
def dbmBase (m : Nat) : Nat :=
  match m with
  | 1 => 0 | 2 => 31 | 3 => 59 | 4 => 90 | 5 => 120 | 6 => 151
  | 7 => 181 | 8 => 212 | 9 => 243 | 10 => 273 | 11 => 304 | 12 => 334
  | _ => 0

/-- Cumulative days before month `m` in year `y`. -/
def dbm (y m : Nat) : Nat := dbmBase m + (if 3 ≤ m then leapBit y else 0)

/-- Number of days in the years 1..y of the proleptic Gregorian calendar. -/
def daysInYears (y : Nat) : Nat := 365 * y + y / 4 - y / 100 + y / 400

/-- Rata-die ordinal of a date: `rd ⟨1,1,1⟩ = 1`, matching
`datetime.date.toordinal`. -/
def rd (dt : Date) : Nat := daysInYears (dt.y - 1) + dbm dt.y dt.m + dt.d

/-- Validity of a date, the invariant `datetime.date` enforces. -/
def ValidDate (dt : Date) : Prop :=
  1 ≤ dt.y ∧ 1 ≤ dt.m ∧ dt.m ≤ 12 ∧ 1 ≤ dt.d ∧ dt.d ≤ dim dt.y dt.m

instance (dt : Date) : Decidable (ValidDate dt) := by
  unfold ValidDate; infer_instance

/-- A valid date; the only kind `datetime.date` can hold. -/
abbrev VDate := { dt : Date // ValidDate dt }

/-- Comparison of `datetime.date` values: lexicographic on (y, m, d). -/
def dateLex (a b : Date) : Prop :=
  a.y < b.y ∨ (a.y = b.y ∧ (a.m < b.m ∨ (a.m = b.m ∧ a.d ≤ b.d)))

instance (a b : Date) : Decidable (dateLex a b) := by
  unfold dateLex; infer_instance

/-- Boolean form of `datetime.date` comparison `a <= b`. -/
def dateLeB (a b : Date) : Bool := decide (dateLex a b)

/-- The day after `dt`: the effect of `timedelta(days=1)`. -/
def nextDay (dt : Date) : Date :=
  if dt.d < dim dt.y dt.m then ⟨dt.y, dt.m, dt.d + 1⟩
  else if dt.m < 12 then ⟨dt.y, dt.m + 1, 1⟩
  else ⟨dt.y + 1, 1, 1⟩

/- ## Calendar lemmas -/

theorem dimBase_pos {m : Nat} (h1 : 1 ≤ m) (h2 : m ≤ 12) : 1 ≤ dimBase m := by
  interval_cases m <;> simp [dimBase]

theorem dim_pos {y m : Nat} (h1 : 1 ≤ m) (h2 : m ≤ 12) : 1 ≤ dim y m := by
  have := dimBase_pos h1 h2
  unfold dim; omega

theorem valid_nextDay {dt : Date} (h : ValidDate dt) : ValidDate (nextDay dt) := by
  obtain ⟨hy, hm1, hm2, hd1, hd2⟩ := h
  by_cases h1 : dt.d < dim dt.y dt.m
  · simp only [nextDay, if_pos h1]
    show 1 ≤ dt.y ∧ 1 ≤ dt.m ∧ dt.m ≤ 12 ∧ 1 ≤ dt.d + 1 ∧ dt.d + 1 ≤ dim dt.y dt.m
    exact ⟨hy, hm1, hm2, by omega, by omega⟩
  · by_cases h2 : dt.m < 12
    · simp only [nextDay, if_neg h1, if_pos h2]
      show 1 ≤ dt.y ∧ 1 ≤ dt.m + 1 ∧ dt.m + 1 ≤ 12 ∧ 1 ≤ 1 ∧ 1 ≤ dim dt.y (dt.m + 1)
      have := dim_pos (y := dt.y) (m := dt.m + 1) (by omega) (by omega)
      exact ⟨hy, by omega, by omega, by omega, this⟩
    · simp only [nextDay, if_neg h1, if_neg h2]
      show 1 ≤ dt.y + 1 ∧ 1 ≤ 1 ∧ 1 ≤ 12 ∧ 1 ≤ 1 ∧ 1 ≤ dim (dt.y + 1) 1
      have := dim_pos (y := dt.y + 1) (m := 1) (by omega) (by omega)
      exact ⟨by omega, by omega, by omega, by omega, this⟩

theorem dbm_step {y m : Nat} (h1 : 1 ≤ m) (h2 : m ≤ 11) :
    dbm y (m + 1) = dbm y m + dim y m := by
  have hl : leapBit y ≤ 1 := by unfold leapBit; split <;> omega
  interval_cases m <;> simp [dbm, dim, dbmBase, dimBase] <;> omega

set_option maxHeartbeats 2000000 in
theorem daysInYears_succ (y : Nat) :
    daysInYears (y + 1) = daysInYears y + 365 + leapBit (y + 1) := by
  unfold daysInYears leapBit
  split <;> omega

theorem daysInYears_mono {y1 y2 : Nat} (h : y1 ≤ y2) :
    daysInYears y1 ≤ daysInYears y2 := by
  induction y2 with
  | zero =>
    have h0 : y1 = 0 := by omega
    subst h0
    exact le_refl _
  | succ n ih =>
    rcases Nat.lt_or_ge y1 (n + 1) with hlt | hge
    · have h1 := ih (by omega)
      have h2 := daysInYears_succ n
      omega
    · have h0 : y1 = n + 1 := by omega
      subst h0
      exact le_refl _

theorem dbm_le {y m : Nat} (h1 : 1 ≤ m) (h2 : m ≤ 12) :
    dbm y m + dim y m ≤ 366 := by
  have hl : leapBit y ≤ 1 := by unfold leapBit; split <;> omega
  interval_cases m <;> simp [dbm, dim, dbmBase, dimBase] <;> omega

theorem dbm_mono {y m1 m2 : Nat} (h1 : 1 ≤ m1) (hm : m1 ≤ m2) (h2 : m2 ≤ 12) :
    dbm y m1 ≤ dbm y m2 := by
  have hl : leapBit y ≤ 1 := by unfold leapBit; split <;> omega
  have key : ∀ a : Fin 13, ∀ b : Fin 13, a.1 ≤ b.1 → dbmBase a.1 ≤ dbmBase b.1 := by
    decide
  have hb : dbmBase m1 ≤ dbmBase m2 := key ⟨m1, by omega⟩ ⟨m2, by omega⟩ hm
  unfold dbm
  split <;> split <;> omega

theorem rd_nextDay {dt : Date} (h : ValidDate dt) : rd (nextDay dt) = rd dt + 1 := by
  obtain ⟨hy, hm1, hm2, hd1, hd2⟩ := h
  by_cases h1 : dt.d < dim dt.y dt.m
  · simp only [nextDay, if_pos h1, rd]
    omega
  · by_cases h2 : dt.m < 12
    · simp only [nextDay, if_neg h1, if_pos h2, rd]
      have hstep := dbm_step (y := dt.y) hm1 (by omega)
      omega
    · simp only [nextDay, if_neg h1, if_neg h2, rd]
      have hm12 : dt.m = 12 := by omega
      have hdim : dim dt.y 12 = 31 := by simp [dim, dimBase]
      have hd31 : dt.d = 31 := by rw [hm12] at h1 hd2; omega
      have hsucc := daysInYears_succ (dt.y - 1)
      have hyy : dt.y - 1 + 1 = dt.y := by omega
      rw [hyy] at hsucc
      have hb1 : dbm (dt.y + 1) 1 = 0 := by simp [dbm, dbmBase]
      have hb12 : dbm dt.y 12 = 334 + leapBit dt.y := by simp [dbm, dbmBase]
      simp only [hm12, hd31, hb1, hb12, Nat.add_sub_cancel]
      omega

theorem rd_le_of_lex {a b : Date} (ha : ValidDate a) (hb : ValidDate b)
    (h : dateLex a b) : rd a ≤ rd b := by
  obtain ⟨hay, ham1, ham2, had1, had2⟩ := ha
  obtain ⟨hby, hbm1, hbm2, hbd1, hbd2⟩ := hb
  rcases h with hy | ⟨hy, hm | ⟨hm, hd⟩⟩
  · -- strictly earlier year
    have hub : dbm a.y a.m + a.d ≤ 366 := by
      have := dbm_le (y := a.y) ham1 ham2
      omega
    have h1 : daysInYears a.y ≥ daysInYears (a.y - 1) + 365 := by
      have hyy : a.y - 1 + 1 = a.y := by omega
      have hs := daysInYears_succ (a.y - 1)
      rw [hyy] at hs
      omega
    have h2 : daysInYears a.y ≤ daysInYears (b.y - 1) := daysInYears_mono (by omega)
    have h3 : 1 ≤ dbm b.y b.m + b.d := by omega
    unfold rd
    omega
  · -- same year, strictly earlier month
    have h1 : dbm a.y a.m + dim a.y a.m = dbm a.y (a.m + 1) :=
      (dbm_step ham1 (by omega)).symm
    have h2 : dbm a.y (a.m + 1) ≤ dbm a.y b.m := dbm_mono (by omega) (by omega) hbm2
    have h3 : daysInYears (a.y - 1) = daysInYears (b.y - 1) := by rw [hy]
    have h4 : dbm a.y b.m = dbm b.y b.m := by rw [hy]
    unfold rd
    omega
  · have h3 : daysInYears (a.y - 1) = daysInYears (b.y - 1) := by rw [hy]
    have h4 : dbm a.y a.m = dbm b.y b.m := by rw [hy, hm]
    unfold rd
    omega

theorem dateLex_trans {a b c : Date} (h1 : dateLex a b) (h2 : dateLex b c) :
    dateLex a c := by
  unfold dateLex at *
  omega

/-- `nextDay a` is the least valid date strictly after `a`. -/
theorem nextDay_le_of_ne {a b : Date} (ha : ValidDate a) (hb : ValidDate b)
    (hle : dateLex a b) (hne : a ≠ b) : dateLex (nextDay a) b := by
  obtain ⟨hay, ham1, ham2, had1, had2⟩ := ha
  obtain ⟨hby, hbm1, hbm2, hbd1, hbd2⟩ := hb
  have hne' : ¬ (a.y = b.y ∧ a.m = b.m ∧ a.d = b.d) := by
    intro ⟨e1, e2, e3⟩
    exact hne (by cases a; cases b; simp_all)
  by_cases h1 : a.d < dim a.y a.m
  · simp only [nextDay, if_pos h1]
    unfold dateLex at *
    dsimp only
    omega
  · have hdd : a.d = dim a.y a.m := by omega
    by_cases h2 : a.m < 12
    · simp only [nextDay, if_neg h1, if_pos h2]
      unfold dateLex at *
      dsimp only
      rcases hle with hy | ⟨hy, hm | ⟨hm, hd⟩⟩
      · exact Or.inl hy
      · right; exact ⟨hy, by omega⟩
      · -- same year and month: b.d ≤ dim = a.d and a.d ≤ b.d forces equality
        exfalso
        rw [← hy, ← hm] at hbd2
        omega
    · simp only [nextDay, if_neg h1, if_neg h2]
      have hm12 : a.m = 12 := by omega
      have hdim : dim a.y 12 = 31 := by simp [dim, dimBase]
      have hd31 : a.d = 31 := by rw [hm12] at hdd; omega
      unfold dateLex at *
      dsimp only
      rcases hle with hy | ⟨hy, hm | ⟨hm, hd⟩⟩
      · rcases Nat.lt_or_ge (a.y + 1) b.y with h | h
        · exact Or.inl h
        · right
          refine ⟨by omega, ?_⟩
          rcases Nat.lt_or_ge 1 b.m with h' | h'
          · exact Or.inl h'
          · right; exact ⟨by omega, by omega⟩
      · omega
      · exfalso
        rw [← hy, ← hm, hm12] at hbd2
        rw [hm12] at hdd
        omega

/- ## Valid-date arithmetic: `timedelta` and `relativedelta` -/

/-- The day after a valid date, as a valid date. -/
def nextDayV (dt : VDate) : VDate := ⟨nextDay dt.val, valid_nextDay dt.property⟩

/-- Adding `n` days to a valid date: `timedelta(days=n)`. -/
def addDaysV (n : Nat) (dt : VDate) : VDate :=
  match n with
  | 0 => dt
  | n + 1 => addDaysV n (nextDayV dt)

/-- Adding months, `dateutil`'s `relativedelta(months=n)`: advance the
month (rolling the year) and clamp the day to the target month's length. -/
def addMonths (dt : Date) (n : Nat) : Date :=
  ⟨dt.y + (dt.m - 1 + n) / 12, (dt.m - 1 + n) % 12 + 1,
    min dt.d (dim (dt.y + (dt.m - 1 + n) / 12) ((dt.m - 1 + n) % 12 + 1))⟩

theorem valid_addMonths {dt : Date} (h : ValidDate dt) (n : Nat) :
    ValidDate (addMonths dt n) := by
  obtain ⟨hy, hm1, hm2, hd1, hd2⟩ := h
  have hmod : (dt.m - 1 + n) % 12 < 12 := Nat.mod_lt _ (by omega)
  have hpos := dim_pos (y := dt.y + (dt.m - 1 + n) / 12)
    (m := (dt.m - 1 + n) % 12 + 1) (by omega) (by omega)
  unfold addMonths
  refine ⟨?_, ?_, ?_, ?_, ?_⟩
  · show 1 ≤ dt.y + (dt.m - 1 + n) / 12
    omega
  · show 1 ≤ (dt.m - 1 + n) % 12 + 1
    omega
  · show (dt.m - 1 + n) % 12 + 1 ≤ 12
    omega
  · show 1 ≤ min dt.d (dim (dt.y + (dt.m - 1 + n) / 12) ((dt.m - 1 + n) % 12 + 1))
    omega
  · show min dt.d (dim (dt.y + (dt.m - 1 + n) / 12) ((dt.m - 1 + n) % 12 + 1)) ≤
      dim (dt.y + (dt.m - 1 + n) / 12) ((dt.m - 1 + n) % 12 + 1)
    omega

/-- `relativedelta(months=n)` on a valid date. -/
def addMonthsV (n : Nat) (dt : VDate) : VDate :=
  ⟨addMonths dt.val n, valid_addMonths dt.property n⟩

/- ## `strptime(_, "%Y-%m-%d")` -/

/-- Numeric value of a list of decimal digit characters, `none` if the
list is empty or contains a non-digit. -/
def parseDigits (cs : List Char) : Option Nat :=
  match cs with
  | [] => none
  | _ =>
    if cs.all (fun c => c.isDigit) then
      some (cs.foldl (fun acc c => acc * 10 + (c.toNat - 48)) 0)
    else none

/-- `datetime.strptime(s, "%Y-%m-%d")`, reduced to the date it denotes:
exactly three dash-separated fields, a 4-digit year (at least 1),
a 1–2 digit month in 1..12, a 1–2 digit day valid for that month.
Returns `none` where Python raises `ValueError`. -/
def parseDate (s : String) : Option VDate :=
  match s.toList.splitOn '-' with
  | [ys, ms, ds] =>
    match parseDigits ys, parseDigits ms, parseDigits ds with
    | some y, some m, some d =>
      if ys.length = 4 ∧ (1 ≤ ms.length ∧ ms.length ≤ 2) ∧
          (1 ≤ ds.length ∧ ds.length ≤ 2) then
        if h : ValidDate ⟨y, m, d⟩ then some ⟨⟨y, m, d⟩, h⟩ else none
      else none
    | _, _, _ => none
  | _ => none

/- ## `date.isocalendar()` (ISO-8601 week date) -/

/-- Day-of-year ordinal, 1-based. -/
def doy (dt : Date) : Nat := dbm dt.y dt.m + dt.d

/-- ISO weekday, Monday = 1 .. Sunday = 7; `rd ⟨1,1,1⟩ = 1` fell on a
Monday in the proleptic Gregorian calendar. -/
def isoWeekday (dt : Date) : Nat := (rd dt - 1) % 7 + 1

/-- Weekday of 31 December of year `y` (0 = Sunday convention used only
internally for the 53-week rule). -/
def yearEndDow (y : Nat) : Nat := (y + y / 4 - y / 100 + y / 400) % 7

/-- Number of ISO weeks in year `y`: 53 iff the year starts or ends on a
Thursday, else 52. -/
def isoWeeksIn (y : Nat) : Nat :=
  if yearEndDow y = 4 ∨ yearEndDow (y - 1) = 3 then 53 else 52

/-- `date.isocalendar()` restricted to its (ISO year, ISO week) pair. -/
def isocalendar (dt : Date) : Nat × Nat :=
  let w := (doy dt + 10 - isoWeekday dt) / 7
  if w = 0 then (dt.y - 1, isoWeeksIn (dt.y - 1))
  else if w = 53 ∧ isoWeeksIn dt.y = 52 then (dt.y + 1, 1)
  else (dt.y, w)

/- ## Decimal rendering (`strftime` / f-string formatting) -/

/-- Decimal digits of `n`, most significant first (fuel-driven). -/
def natDigitsAux (fuel n : Nat) : List Char :=
  match fuel with
  | 0 => []
  | fuel + 1 =>
    if n < 10 then [Nat.digitChar n]
    else natDigitsAux fuel (n / 10) ++ [Nat.digitChar (n % 10)]

/-- Decimal rendering of a natural number. -/
def natToStr (n : Nat) : String := String.mk (natDigitsAux (n + 1) n)

/-- Zero-padded two-digit rendering, Python's `%02d` / `strftime %m`. -/
def pad2 (n : Nat) : String := if n < 10 then "0" ++ natToStr n else natToStr n

/-- Zero-padded four-digit rendering, `strftime %Y`. -/
def pad4 (n : Nat) : String :=
  if n < 10 then "000" ++ natToStr n
  else if n < 100 then "00" ++ natToStr n
  else if n < 1000 then "0" ++ natToStr n
  else natToStr n

/- ## `format_period` and `make_period_key` -/

/-- Shared core of `format_period` (`plotters.py` and `git_report.py` hold
two identical copies): the period key of a valid date under a real
`Period` member. DAY is `strftime("%Y-%m-%d")`, WEEK is
`f"{iso_year}-W{iso_week:02d}"`, MONTH is `strftime("%Y-%m")`. -/
def formatPeriod (dt : Date) (period : Period) : String :=
  match period with
  | Period.DAY => pad4 dt.y ++ "-" ++ pad2 dt.m ++ "-" ++ pad2 dt.d
  | Period.WEEK => natToStr (isocalendar dt).1 ++ "-W" ++ pad2 (isocalendar dt).2
  | Period.MONTH => pad4 dt.y ++ "-" ++ pad2 dt.m

/-- `plotters.format_period`, with Python's optional arguments made
explicit: `None` date is rejected first (`ValueError("No date provided")`),
then an unrecognized period raises `ValueError("Unsupported period")`. -/
def plottersFormatPeriod (date : Option Date) (period : Option Period) :
    Except PyError String :=
  match date with
  | none => Except.error (PyError.valueError "No date provided")
  | some d =>
    match period with
    | some p => Except.ok (formatPeriod d p)
    | none => Except.error (PyError.valueError "Unsupported period")

/-- `git_report.format_period`: the period is dispatched first; inside a
recognized branch a `None` date hits `date.strftime`/`date.isocalendar`
and raises `AttributeError`, not `ValueError`. -/
def gitReportFormatPeriod (date : Option Date) (period : Option Period) :
    Except PyError String :=
  match period with
  | some p =>
    match date with
    | some d => Except.ok (formatPeriod d p)
    | none => Except.error PyError.attributeError
  | none => Except.error (PyError.valueError "Unsupported period")

/-- `make_period_key` (identical in both modules): parse the commit's
date string with `strptime` and format it. -/
def makePeriodKey (c : Commit) (period : Period) : Except PyError String :=
  match parseDate c.date with
  | some d => Except.ok (formatPeriod d.val period)
  | none => Except.error (PyError.valueError "time data does not match format")

/- ## Insertion-ordered dictionaries
`dict` / `defaultdict` are modelled as association lists: lookup scans
from the front, a missing key is appended at the back, exactly Python's
insertion order. -/

/-- Inner `defaultdict(int)`: repo name → count. -/
abbrev RepoCounts := List (String × Nat)

/-- `CommitsPerRepoPerPeriod`: period key → per-repo counts. -/
abbrev SeriesData := List (String × RepoCounts)

/-- `counts[key] += 1` on a `defaultdict(int)`: increment in place or
append `(key, 1)`. -/
def bump (l : RepoCounts) (k : String) : RepoCounts :=
  match l with
  | [] => [(k, 1)]
  | (k', v) :: rest => if k' = k then (k', v + 1) :: rest else (k', v) :: bump rest k

/-- `dates[tag] = defaultdict(int)`: bind `tag` to an empty inner map
(overwriting any previous binding). -/
def setEmpty (d : SeriesData) (k : String) : SeriesData :=
  match d with
  | [] => [(k, [])]
  | (k', v) :: rest => if k' = k then (k', []) :: rest else (k', v) :: setEmpty rest k

/-- `data[key][repo] += 1` where `data` is a `defaultdict` of
`defaultdict(int)`: a missing period key is created on the fly. -/
def incr2 (d : SeriesData) (k r : String) : SeriesData :=
  match d with
  | [] => [(k, [(r, 1)])]
  | (k', v) :: rest => if k' = k then (k', bump v r) :: rest else (k', v) :: incr2 rest k r

/-- Does the dictionary contain key `k`? -/
def hasKey (d : SeriesData) (k : String) : Bool :=
  match d with
  | [] => false
  | (k', _) :: rest => k' = k || hasKey rest k

/-- Lookup of a period key. -/
def lookupKey (d : SeriesData) (k : String) : Option RepoCounts :=
  match d with
  | [] => none
  | (k', v) :: rest => if k' = k then some v else lookupKey rest k

/-- Sum of an inner per-repo count map. -/
def sumInner (l : RepoCounts) : Nat := (l.map Prod.snd).sum

/-- Sum of the per-repo counts stored under `k` (0 if `k` is absent). -/
def sumAt (d : SeriesData) (k : String) : Nat :=
  match lookupKey d k with
  | none => 0
  | some v => sumInner v

/-- Total of all counts over all periods and repos. -/
def totalSum (d : SeriesData) : Nat := (d.map (fun kv => sumInner kv.2)).sum

/-- Are all inner maps empty (the state `generate_dates` leaves them in)? -/
def allEmpty (d : SeriesData) : Bool := d.all (fun kv => kv.2.isEmpty)

/-- `data[period].get(repo, 0)`. -/
def getCount (d : SeriesData) (k r : String) : Nat :=
  match lookupKey d k with
  | none => 0
  | some v =>
    match v.find? (fun p => p.1 = r) with
    | none => 0
    | some p => p.2

/- ## `generate_dates` (identical in `plotters.py` and `git_report.py`) -/

/-- One loop step of `generate_dates`: `timedelta(days=interval)`,
`timedelta(weeks=interval)` or `relativedelta(months=interval)`. -/
def stepDate (step : Period) (interval : Nat) (cur : VDate) : VDate :=
  match step with
  | Period.DAY => addDaysV interval cur
  | Period.WEEK => addDaysV (7 * interval) cur
  | Period.MONTH => addMonthsV interval cur

/-- The `while current <= end_date` loop of `generate_dates`.  `fuel`
bounds the number of iterations; the wrapper passes
`rd end + 1 - rd start`, which suffices because (for `interval ≥ 1`)
every step advances the date by at least one day and the guard fails as
soon as `rd current > rd end` (`rd_le_of_lex`).  (For `interval = 0` the
Python loop never terminates.) -/
def genLoop (fuel : Nat) (endD : VDate) (step : Period) (interval : Nat)
    (current : VDate) (acc : SeriesData) : SeriesData :=
  match fuel with
  | 0 => acc
  | fuel + 1 =>
    if dateLeB current.val endD.val then
      genLoop fuel endD step interval (stepDate step interval current)
        (setEmpty acc (formatPeriod current.val step))
    else acc

/-- `generate_dates(start, end, step, interval)`: parse both commit
dates (`strptime` raises `ValueError` on malformed input) and run the
skeleton-building loop from the start date. -/
def generate_dates (start endC : Commit) (step : Period) (interval : Nat) :
    Except PyError SeriesData :=
  match parseDate start.date with
  | none => Except.error (PyError.valueError "time data does not match format")
  | some startD =>
    match parseDate endC.date with
    | none => Except.error (PyError.valueError "time data does not match format")
    | some endD =>
      Except.ok (genLoop (rd endD.val + 1 - rd startD.val) endD step interval startD [])

/-- The fill pass of `plot_commits`: for each commit,
`data[make_period_key(commit, period)][commit.repo_name] += 1`
(`make_period_key` raises on a malformed date). -/
def fillSeries (skel : SeriesData) (commits : Commits) (period : Period) :
    Except PyError SeriesData :=
  commits.foldlM
    (fun acc c => do
      let k ← makePeriodKey c period
      pure (incr2 acc k c.repo_name))
    skel

/-- Number of commits of `commits` whose period key under `period` is
`k` (the quantity the fill pass is meant to chart). -/
def keyCount (commits : Commits) (period : Period) (k : String) : Nat :=
  commits.countP (fun c => decide (makePeriodKey c period = Except.ok k))

/- ## Dense-series lemmas -/

theorem sumInner_bump (l : RepoCounts) (k : String) :
    sumInner (bump l k) = sumInner l + 1 := by
  induction l with
  | nil => rfl
  | cons p rest ih =>
    obtain ⟨k', v⟩ := p
    by_cases h : k' = k
    · simp [bump, h, sumInner]
      omega
    · simp only [bump, if_neg h, sumInner, List.map_cons, List.sum_cons] at ih ⊢
      omega

theorem sumAt_incr2 (d : SeriesData) (k r k' : String) :
    sumAt (incr2 d k r) k' = sumAt d k' + (if k' = k then 1 else 0) := by
  induction d with
  | nil =>
    by_cases h : k = k'
    · subst h
      simp [incr2, sumAt, lookupKey, sumInner]
    · have h' : ¬ k' = k := fun hh => h hh.symm
      simp [incr2, sumAt, lookupKey, h, h']
  | cons p rest ih =>
    obtain ⟨k0, v⟩ := p
    by_cases h0 : k0 = k
    · subst h0
      by_cases h' : k0 = k'
      · subst h'
        simp [incr2, sumAt, lookupKey, sumInner_bump]
      · have h'' : ¬ k' = k0 := fun hh => h' hh.symm
        simp [incr2, sumAt, lookupKey, h', h'']
    · by_cases h' : k0 = k'
      · subst h'
        simp [incr2, sumAt, lookupKey, h0]
      · simp only [incr2, if_neg h0, sumAt, lookupKey, if_neg h'] at ih ⊢
        exact ih

theorem totalSum_incr2 (d : SeriesData) (k r : String) :
    totalSum (incr2 d k r) = totalSum d + 1 := by
  induction d with
  | nil => simp [incr2, totalSum, sumInner]
  | cons p rest ih =>
    obtain ⟨k0, v⟩ := p
    by_cases h0 : k0 = k
    · simp [incr2, h0, totalSum, sumInner_bump]
      omega
    · simp only [incr2, if_neg h0, totalSum, List.map_cons, List.sum_cons] at ih ⊢
      omega

theorem fillSeries_sumAt (period : Period) :
    ∀ (commits : Commits) (skel data : SeriesData),
      fillSeries skel commits period = Except.ok data →
      ∀ k, sumAt data k = sumAt skel k + keyCount commits period k := by
  intro commits
  induction commits with
  | nil =>
    intro skel data h k
    simp only [fillSeries, List.foldlM_nil, pure, Except.pure] at h
    cases h
    simp [keyCount]
  | cons c cs ih =>
    intro skel data h k
    simp only [fillSeries, List.foldlM_cons] at h
    cases hk : makePeriodKey c period with
    | error e =>
      rw [hk] at h
      simp [Bind.bind, Except.bind] at h
    | ok kc =>
      rw [hk] at h
      simp only [Bind.bind, Except.bind, pure, Except.pure] at h
      have hrec := ih (incr2 skel kc c.repo_name) data h k
      rw [sumAt_incr2] at hrec
      have hcnt : keyCount (c :: cs) period k =
          keyCount cs period k + (if k = kc then 1 else 0) := by
        simp only [keyCount, List.countP_cons, hk]
        by_cases hkk : k = kc
        · subst hkk; simp
        · have hkk' : ¬ kc = k := fun hh => hkk hh.symm
          simp [Except.ok.injEq, hkk, hkk']
      rw [hcnt]
      omega

theorem fillSeries_totalSum (period : Period) :
    ∀ (commits : Commits) (skel data : SeriesData),
      fillSeries skel commits period = Except.ok data →
      totalSum data = totalSum skel + commits.length := by
  intro commits
  induction commits with
  | nil =>
    intro skel data h
    simp only [fillSeries, List.foldlM_nil, pure, Except.pure] at h
    cases h
    simp
  | cons c cs ih =>
    intro skel data h
    simp only [fillSeries, List.foldlM_cons] at h
    cases hk : makePeriodKey c period with
    | error e =>
      rw [hk] at h
      simp [Bind.bind, Except.bind] at h
    | ok kc =>
      rw [hk] at h
      simp only [Bind.bind, Except.bind, pure, Except.pure] at h
      have hrec := ih (incr2 skel kc c.repo_name) data h
      rw [totalSum_incr2] at hrec
      simp only [List.length_cons]
      omega

theorem allEmpty_setEmpty (d : SeriesData) (k : String)
    (h : allEmpty d = true) : allEmpty (setEmpty d k) = true := by
  induction d with
  | nil => simp [setEmpty, allEmpty]
  | cons p rest ih =>
    obtain ⟨k0, v⟩ := p
    simp only [allEmpty, List.all_cons, Bool.and_eq_true] at h
    by_cases h0 : k0 = k
    · simp [setEmpty, h0, allEmpty, h.2]
    · simp only [setEmpty, if_neg h0, allEmpty, List.all_cons, Bool.and_eq_true]
      exact ⟨h.1, ih h.2⟩

theorem genLoop_allEmpty :
    ∀ (fuel : Nat) (endD : VDate) (step : Period) (interval : Nat)
      (cur : VDate) (acc : SeriesData),
      allEmpty acc = true →
      allEmpty (genLoop fuel endD step interval cur acc) = true := by
  intro fuel
  induction fuel with
  | zero => intro _ _ _ _ acc h; exact h
  | succ n ih =>
    intro endD step interval cur acc h
    unfold genLoop
    by_cases hg : dateLeB cur.val endD.val = true
    · rw [if_pos hg]
      exact ih endD step interval _ _ (allEmpty_setEmpty acc _ h)
    · rw [if_neg hg]
      exact h

theorem sumAt_allEmpty (d : SeriesData) (k : String)
    (h : allEmpty d = true) : sumAt d k = 0 := by
  induction d with
  | nil => rfl
  | cons p rest ih =>
    obtain ⟨k0, v⟩ := p
    simp only [allEmpty, List.all_cons, Bool.and_eq_true, List.isEmpty_iff] at h
    by_cases h0 : k0 = k
    · simp [sumAt, lookupKey, h0, h.1, sumInner]
    · simp only [sumAt, lookupKey, if_neg h0] at ih ⊢
      exact ih (by simp [allEmpty, h.2])

theorem totalSum_allEmpty (d : SeriesData)
    (h : allEmpty d = true) : totalSum d = 0 := by
  induction d with
  | nil => rfl
  | cons p rest ih =>
    obtain ⟨k0, v⟩ := p
    simp only [allEmpty, List.all_cons, Bool.and_eq_true, List.isEmpty_iff] at h
    have hrest := ih (by simp [allEmpty, h.2])
    simp only [totalSum, List.map_cons, List.sum_cons] at hrest ⊢
    rw [h.1]
    have hnil : sumInner ([] : RepoCounts) = 0 := rfl
    omega

theorem hasKey_setEmpty_self (d : SeriesData) (k : String) :
    hasKey (setEmpty d k) k = true := by
  induction d with
  | nil => simp [setEmpty, hasKey]
  | cons p rest ih =>
    obtain ⟨k0, v⟩ := p
    by_cases h0 : k0 = k
    · simp [setEmpty, h0, hasKey]
    · simp [setEmpty, h0, hasKey, ih]

theorem hasKey_setEmpty_mono (d : SeriesData) (k k' : String)
    (h : hasKey d k' = true) : hasKey (setEmpty d k) k' = true := by
  induction d with
  | nil => simp [hasKey] at h
  | cons p rest ih =>
    obtain ⟨k0, v⟩ := p
    simp only [hasKey, Bool.or_eq_true, decide_eq_true_eq] at h
    by_cases h0 : k0 = k
    · simp only [setEmpty, if_pos h0, hasKey, Bool.or_eq_true, decide_eq_true_eq]
      exact h.imp id id
    · simp only [setEmpty, if_neg h0, hasKey, Bool.or_eq_true, decide_eq_true_eq]
      exact h.imp id ih

theorem genLoop_hasKey_mono :
    ∀ (fuel : Nat) (endD : VDate) (step : Period) (interval : Nat)
      (cur : VDate) (acc : SeriesData) (k : String),
      hasKey acc k = true →
      hasKey (genLoop fuel endD step interval cur acc) k = true := by
  intro fuel
  induction fuel with
  | zero => intro _ _ _ _ acc k h; exact h
  | succ n ih =>
    intro endD step interval cur acc k h
    unfold genLoop
    by_cases hg : dateLeB cur.val endD.val = true
    · rw [if_pos hg]
      exact ih endD step interval _ _ k (hasKey_setEmpty_mono acc _ k h)
    · rw [if_neg hg]
      exact h

/-- Every day between the current date and the end date (inclusive) gets
its DAY key into the skeleton built by the `generate_dates` loop. -/
theorem genLoop_day_coverage :
    ∀ (fuel : Nat) (endD cur : VDate) (acc : SeriesData) (dt : VDate),
      rd endD.val + 1 - rd cur.val ≤ fuel →
      dateLex cur.val dt.val → dateLex dt.val endD.val →
      hasKey (genLoop fuel endD Period.DAY 1 cur acc)
        (formatPeriod dt.val Period.DAY) = true := by
  intro fuel
  induction fuel with
  | zero =>
    intro endD cur acc dt hf h1 h2
    exfalso
    have hcd := rd_le_of_lex cur.property dt.property h1
    have hde := rd_le_of_lex dt.property endD.property h2
    omega
  | succ n ih =>
    intro endD cur acc dt hf h1 h2
    have hguard : dateLeB cur.val endD.val = true :=
      decide_eq_true (dateLex_trans h1 h2)
    unfold genLoop
    rw [if_pos hguard]
    by_cases heq : cur.val = dt.val
    · apply genLoop_hasKey_mono
      rw [← heq]
      exact hasKey_setEmpty_self acc _
    · have hstep : (stepDate Period.DAY 1 cur).val = nextDay cur.val := rfl
      apply ih
      · rw [hstep, rd_nextDay cur.property]
        have := rd_le_of_lex cur.property endD.property
          (of_decide_eq_true hguard)
        omega
      · rw [hstep]
        exact nextDay_le_of_ne cur.property dt.property h1 heq
      · exact h2

/- ## Repository locator: `find_git_repos` -/

/- A directory tree (files are irrelevant to the locator: `os.walk`'s
`dirs` entries are modelled, and the `.git` marker is a child directory
named `".git"`). -/
mutual

/-- A directory: a name and its subdirectories. -/
inductive FSTree where
  | dir (name : String) (children : FSForest)

/-- A list of sibling directories. -/
inductive FSForest where
  | nil
  | cons (t : FSTree) (f : FSForest)

end

def FSTree.name : FSTree → String
  | FSTree.dir n _ => n

def FSTree.children : FSTree → FSForest
  | FSTree.dir _ c => c

/-- Do the children contain a directory named `".git"`? -/
def hasGitDir : FSForest → Bool
  | FSForest.nil => false
  | FSForest.cons t f => t.name = ".git" || hasGitDir f

/-- The path string `os.walk` hands to the exclusion patterns:
components joined with `/`. -/
def joinPath (path : List String) : String := String.intercalate "/" path

/-- An exclusion pattern, reduced to what the source uses of it:
`pat.search(root)` as a Boolean test on the path string. -/
abbrev ExPattern := String → Bool

mutual

/-- `find_git_repos`, one `os.walk` visit: if the directory's path
matches an exclude pattern, prune (`dirs.clear(); continue`); else if
`".git"` is among its subdirectories, yield it and prune; else recurse
into every subdirectory. -/
def walkTree (pats : List ExPattern) (path : List String) :
    FSTree → List (List String)
  | FSTree.dir _ children =>
    if pats.any (fun pat => pat (joinPath path)) then []
    else if hasGitDir children then [path]
    else walkForest pats path children

def walkForest (pats : List ExPattern) (path : List String) :
    FSForest → List (List String)
  | FSForest.nil => []
  | FSForest.cons t f =>
    walkTree pats (path ++ [t.name]) t ++ walkForest pats path f

end

/-- `find_git_repos(base_path, exclude_patterns)`: walk the tree rooted
at `base_path` (whose path components are `basePath`). -/
def find_git_repos (basePath : List String) (tree : FSTree)
    (exclude_patterns : List ExPattern) : List (List String) :=
  walkTree exclude_patterns basePath tree

/-- Is `n` the name of some tree in the forest? -/
def memberName (n : String) : FSForest → Bool
  | FSForest.nil => false
  | FSForest.cons t f => t.name = n || memberName n f

/- Well-formedness of a real directory tree: sibling names are distinct
at every level. -/
mutual

/-- A directory tree whose sibling names are distinct at every level. -/
def wfTree : FSTree → Bool
  | FSTree.dir _ children => wfForest children

/-- Well-formedness of a forest of siblings. -/
def wfForest : FSForest → Bool
  | FSForest.nil => true
  | FSForest.cons t f => wfTree t && (!memberName t.name f) && wfForest f

end

/-- Substring containment on strings (semantics of `re.search` for a
plain-text pattern): some split of the haystack has the needle as the
next characters. -/
def containsSub (hay needle : String) : Bool :=
  go hay.data needle.data
where
  go : List Char → List Char → Bool
    | _, [] => true
    | [], _ :: _ => false
    | h :: hs, n :: ns => (h = n && isPre hs ns) || go hs (n :: ns)
  isPre : List Char → List Char → Bool
    | _, [] => true
    | [], _ :: _ => false
    | h :: hs, n :: ns => h = n && isPre hs ns

/- ## Locator lemmas -/

/-- `q` is an ancestor of (or equal to) `p` in the directory tree,
as component lists. -/
def pathLe (q p : List String) : Prop := ∃ t, p = q ++ t

theorem pathLe_refl (p : List String) : pathLe p p := ⟨[], by simp⟩

theorem pathLe_antisymm {p q : List String} (h1 : pathLe p q)
    (h2 : pathLe q p) : p = q := by
  obtain ⟨t1, h1⟩ := h1
  obtain ⟨t2, h2⟩ := h2
  subst h1
  have hlen := congrArg List.length h2
  simp only [List.length_append] at hlen
  have ht : t1 = [] := List.eq_nil_of_length_eq_zero (by omega)
  subst ht
  simp

theorem appendLeftCancel {α : Type} {a b c : List α} (h : a ++ b = a ++ c) :
    b = c := by
  induction a with
  | nil => exact h
  | cons x xs ih =>
    simp only [List.cons_append, List.cons.injEq] at h
    exact ih h.2

/-- Two ancestors of the same path are comparable. -/
theorem pathLe_comparable :
    ∀ (a b c : List String), pathLe a c → pathLe b c →
      pathLe a b ∨ pathLe b a := by
  intro a
  induction a with
  | nil => intro b c _ _; exact Or.inl ⟨b, rfl⟩
  | cons x a' ih =>
    intro b c h1 h2
    obtain ⟨s, hs⟩ := h1
    obtain ⟨t, ht⟩ := h2
    cases b with
    | nil => exact Or.inr ⟨x :: a', rfl⟩
    | cons y b' =>
      subst hs
      simp only [List.cons_append, List.cons.injEq] at ht
      obtain ⟨hxy, hrest⟩ := ht
      subst hxy
      rcases ih b' (a' ++ s) ⟨s, rfl⟩ ⟨t, hrest⟩ with h | h
      · obtain ⟨u, hu⟩ := h
        exact Or.inl ⟨u, by simp [hu]⟩
      · obtain ⟨u, hu⟩ := h
        exact Or.inr ⟨u, by simp [hu]⟩

/-- A strict descendant of `base` starts with `base` plus one more
component. -/
theorem pathLe_strict {base q : List String} (h : pathLe base q)
    (hne : q ≠ base) : ∃ c s, q = base ++ c :: s := by
  obtain ⟨t, ht⟩ := h
  cases t with
  | nil => exact absurd (by simp [ht]) hne
  | cons c s => exact ⟨c, s, ht⟩

/-- A pattern-false guard, element-wise. -/
theorem any_eq_false_elem {pats : List ExPattern} {s : String}
    (h : (pats.any fun pat => pat s) = false) :
    ∀ pat ∈ pats, pat s = false := by
  intro pat hpat
  rw [List.any_eq_false] at h
  have h2 := h pat hpat
  simpa using h2

mutual

/-- Every path yielded below a tree extends the visit path. -/
theorem walkTree_extends (pats : List ExPattern) :
    ∀ (t : FSTree) (path p : List String),
      p ∈ walkTree pats path t → pathLe path p
  | FSTree.dir n children, path, p, hp => by
    simp only [walkTree] at hp
    by_cases hexcl : (pats.any fun pat => pat (joinPath path)) = true
    · rw [if_pos hexcl] at hp
      simp at hp
    · rw [if_neg hexcl] at hp
      by_cases hgit : hasGitDir children = true
      · rw [if_pos hgit] at hp
        simp only [List.mem_singleton] at hp
        subst hp
        exact pathLe_refl p
      · rw [if_neg hgit] at hp
        obtain ⟨c, s, hcs, _⟩ := walkForest_extends pats children path p hp
        exact ⟨c :: s, hcs⟩

/-- Every path yielded by a forest extends the visit path by a component
that names one of the forest's trees. -/
theorem walkForest_extends (pats : List ExPattern) :
    ∀ (f : FSForest) (path p : List String),
      p ∈ walkForest pats path f →
      ∃ c s, p = path ++ c :: s ∧ memberName c f = true
  | FSForest.nil, path, p, hp => by
    simp [walkForest] at hp
  | FSForest.cons t f, path, p, hp => by
    simp only [walkForest, List.mem_append] at hp
    rcases hp with hp | hp
    · have hle := walkTree_extends pats t (path ++ [t.name]) p hp
      obtain ⟨u, hu⟩ := hle
      refine ⟨t.name, u, by simp [hu], ?_⟩
      simp [memberName]
    · obtain ⟨c, s, hcs, hm⟩ := walkForest_extends pats f path p hp
      refine ⟨c, s, hcs, ?_⟩
      simp [memberName, hm]

end

mutual

/-- No ancestor (at or below the visit path) of a yielded repository
root matches an exclusion pattern. -/
theorem walkTree_unexcluded (pats : List ExPattern) :
    ∀ (t : FSTree) (path p : List String),
      p ∈ walkTree pats path t →
      ∀ q, pathLe path q → pathLe q p →
      ∀ pat ∈ pats, pat (joinPath q) = false
  | FSTree.dir n children, path, p, hp, q, hq1, hq2, pat, hpat => by
    simp only [walkTree] at hp
    by_cases hexcl : (pats.any fun pat => pat (joinPath path)) = true
    · rw [if_pos hexcl] at hp
      simp at hp
    · rw [if_neg hexcl] at hp
      have hfalse := any_eq_false_elem (Bool.not_eq_true _ ▸ hexcl) pat hpat
      by_cases hgit : hasGitDir children = true
      · rw [if_pos hgit] at hp
        simp only [List.mem_singleton] at hp
        have hq2' : pathLe q path := hp ▸ hq2
        have hqpath : q = path := pathLe_antisymm hq2' hq1
        rw [hqpath]
        exact hfalse
      · rw [if_neg hgit] at hp
        by_cases hqp : q = path
        · subst hqp
          exact hfalse
        · obtain ⟨c, s, hcs⟩ := pathLe_strict hq1 hqp
          exact walkForest_unexcluded pats children path p hp q ⟨c, s, hcs⟩
            hq2 pat hpat

/-- Forest version of `walkTree_unexcluded`, for ancestors strictly
below the parent path. -/
theorem walkForest_unexcluded (pats : List ExPattern) :
    ∀ (f : FSForest) (path p : List String),
      p ∈ walkForest pats path f →
      ∀ q, (∃ c s, q = path ++ c :: s) → pathLe q p →
      ∀ pat ∈ pats, pat (joinPath q) = false
  | FSForest.nil, path, p, hp, _, _, _, _, _ => by
    simp [walkForest] at hp
  | FSForest.cons t f, path, p, hp, q, hq1, hq2, pat, hpat => by
    simp only [walkForest, List.mem_append] at hp
    rcases hp with hp | hp
    · -- p comes from the child t at path ++ [t.name]
      have hchild : pathLe (path ++ [t.name]) p :=
        walkTree_extends pats t (path ++ [t.name]) p hp
      have hq1' : pathLe (path ++ [t.name]) q := by
        rcases pathLe_comparable q (path ++ [t.name]) p hq2 hchild with h | h
        · -- q at or above path ++ [t.name]: with hq1 it must equal it
          obtain ⟨c, s, hcs⟩ := hq1
          obtain ⟨u, hu⟩ := h
          rw [hcs] at hu
          simp only [List.append_assoc] at hu
          have heq := appendLeftCancel hu
          cases s with
          | nil =>
            simp only [List.cons_append, List.nil_append] at heq
            injection heq with h5 h6
            rw [hcs, ← h5]
            exact pathLe_refl _
          | cons c1 s1 =>
            exfalso
            have hlen := congrArg List.length heq
            simp [List.length_append] at hlen
        · exact h
      exact walkTree_unexcluded pats t (path ++ [t.name]) p hp q hq1' hq2
        pat hpat
    · exact walkForest_unexcluded pats f path p hp q hq1 hq2 pat hpat

end

mutual

/-- Results below one tree are never nested in one another (the walker
stops descending at a yielded root). -/
theorem walkTree_no_nesting (pats : List ExPattern) :
    ∀ (t : FSTree) (path p q : List String),
      wfTree t = true →
      p ∈ walkTree pats path t → q ∈ walkTree pats path t →
      p ≠ q → ¬ pathLe p q
  | FSTree.dir n children, path, p, q, hwf, hp, hq, hne => by
    simp only [walkTree] at hp hq
    by_cases hexcl : (pats.any fun pat => pat (joinPath path)) = true
    · rw [if_pos hexcl] at hp
      simp at hp
    · rw [if_neg hexcl] at hp hq
      by_cases hgit : hasGitDir children = true
      · rw [if_pos hgit] at hp hq
        simp only [List.mem_singleton] at hp hq
        exact absurd (hp.trans hq.symm) hne
      · rw [if_neg hgit] at hp hq
        have hwf' : wfForest children = true := by simpa [wfTree] using hwf
        exact walkForest_no_nesting pats children path p q hwf' hp hq hne

/-- Forest version of `walkTree_no_nesting`: distinct sibling names keep
results of different children incomparable. -/
theorem walkForest_no_nesting (pats : List ExPattern) :
    ∀ (f : FSForest) (path p q : List String),
      wfForest f = true →
      p ∈ walkForest pats path f → q ∈ walkForest pats path f →
      p ≠ q → ¬ pathLe p q
  | FSForest.nil, path, p, q, hwf, hp, hq, hne => by
    simp [walkForest] at hp
  | FSForest.cons t f, path, p, q, hwf, hp, hq, hne => by
    simp only [wfForest, Bool.and_eq_true] at hwf
    obtain ⟨⟨hwt, hmem⟩, hwff⟩ := hwf
    have hmem' : memberName t.name f = false := by
      cases hm : memberName t.name f
      · rfl
      · rw [hm] at hmem
        simp at hmem
    simp only [walkForest, List.mem_append] at hp hq
    rcases hp with hp | hp <;> rcases hq with hq | hq
    · exact walkTree_no_nesting pats t (path ++ [t.name]) p q hwt hp hq hne
    · intro hle
      obtain ⟨c, s, hq1, hqm⟩ := walkForest_extends pats f path q hq
      have hp1 : pathLe (path ++ [t.name]) p := walkTree_extends pats t _ p hp
      obtain ⟨u1, hu1⟩ := hp1
      obtain ⟨u2, hu2⟩ := hle
      rw [hu1, hq1] at hu2
      simp only [List.append_assoc] at hu2
      have heq := appendLeftCancel hu2
      simp only [List.cons_append, List.nil_append] at heq
      injection heq with h5 h6
      rw [← h5] at hmem'
      rw [hqm] at hmem'
      cases hmem'
    · intro hle
      obtain ⟨c, s, hp1, hpm⟩ := walkForest_extends pats f path p hp
      have hq1 : pathLe (path ++ [t.name]) q := walkTree_extends pats t _ q hq
      obtain ⟨u1, hu1⟩ := hq1
      obtain ⟨u2, hu2⟩ := hle
      rw [hp1] at hu2
      have hu3 := hu1.symm.trans hu2
      simp only [List.append_assoc] at hu3
      have heq := appendLeftCancel hu3
      simp only [List.cons_append, List.nil_append] at heq
      injection heq with h5 h6
      rw [h5] at hmem'
      rw [hpm] at hmem'
      cases hmem'
    · exact walkForest_no_nesting pats f path p q hwff hp hq hne

end

/-- The directory tree of the spec's exclusion scenario:
`root/a/.git`, `root/a/vendor/.git`, `root/excluded/.git`. -/
def scenTree : FSTree :=
  FSTree.dir "root" (FSForest.cons
    (FSTree.dir "a" (FSForest.cons (FSTree.dir ".git" FSForest.nil)
      (FSForest.cons
        (FSTree.dir "vendor"
          (FSForest.cons (FSTree.dir ".git" FSForest.nil) FSForest.nil))
        FSForest.nil)))
    (FSForest.cons
      (FSTree.dir "excluded"
        (FSForest.cons (FSTree.dir ".git" FSForest.nil) FSForest.nil))
      FSForest.nil))

/-- The exclusion pattern `excluded|vendor` of the scenario, as the
substring test `re.search` performs for it. -/
def scenPat : ExPattern :=
  fun s => containsSub s "excluded" || containsSub s "vendor"

/-- A two-repository tree (`root/x/.git`, `root/y/.git`) used to witness
the no-nesting property on distinct results. -/
def twoRepoTree : FSTree :=
  FSTree.dir "root" (FSForest.cons
    (FSTree.dir "x" (FSForest.cons (FSTree.dir ".git" FSForest.nil) FSForest.nil))
    (FSForest.cons
      (FSTree.dir "y"
        (FSForest.cons (FSTree.dir ".git" FSForest.nil) FSForest.nil))
      FSForest.nil))

/- ## Commit extractor: `get_commit_stats` -/

/-- Result of the `subprocess.run` git invocation: exit code and
standard output already split into lines (`splitlines`). -/
structure SubprocResult where
  returncode : Int
  stdoutLines : List String
deriving DecidableEq

/-- `line.split("|", 3)`: split on `|` at most three times, so a subject
containing `|` stays in one piece.  Always returns 1 to 4 parts. -/
def splitPipe3 (s : String) : List String :=
  go 3 [] s.data
where
  go : Nat → List Char → List Char → List String
    | _, acc, [] => [String.mk acc.reverse]
    | 0, acc, rest => [String.mk (acc.reverse ++ rest)]
    | n + 1, acc, c :: cs =>
      if c = '|' then String.mk acc.reverse :: go n [] cs
      else go (n + 1) (c :: acc) cs

/-- `line.strip()` emptiness: is the line whitespace-only? -/
def isBlankLine (s : String) : Bool := s.data.all Char.isWhitespace

/-- First `n` characters of a string, `s[:n]`. -/
def strTake (s : String) (n : Nat) : String := String.mk (s.data.take n)

/-- Parsing of one log line: unpack
`commit_hash, author_email, commit_date, commit_subj = line.split("|", 3)`
(a `ValueError` if there are fewer than four parts), truncate the hash
to 7 characters.  The date field is stored as-is — no validation. -/
def parseLogLine (repoName line : String) : Except PyError Commit :=
  match splitPipe3 line with
  | [h, a, d, s] => Except.ok ⟨repoName, strTake h 7, a, d, s⟩
  | _ => Except.error (PyError.valueError "not enough values to unpack")

/-- The runtime type of the `repo_path` argument of `get_commit_stats`.
The annotation and the repository's unit test pass a `pathlib.Path`;
`main()` passes the `str` roots that `os.walk` yields from
`find_git_repos`. -/
inductive RepoPath where
  | pathArg (s : String)
  | strArg (s : String)
deriving DecidableEq

/-- The per-line parse loop of `get_commit_stats` (lines 97–104) as
written: skip blank lines, unpack the four `|`-fields, truncate the
hash, store the date field raw.  At runtime this loop is unreachable:
the `AttributeError` of line 94 precedes it on every zero-exit path. -/
def parseStdoutLines (repoName : String) (lines : List String) :
    Except PyError Commits :=
  lines.foldlM
    (fun acc line =>
      if isBlankLine line then pure acc
      else do
        let c ← parseLogLine repoName line
        pure (acc ++ [c]))
    []

/-- `get_commit_stats(repo_path, ...)` with the subprocess call made an
explicit input.  A `str` argument — the type `main()` actually passes —
raises `AttributeError` at line 79 (`repo_path.absolute()`: `str` has no
such attribute) before the subprocess would even run.  A `Path` argument
returns `[]` when the subprocess exits non-zero
(`if result.returncode != 0: return []`, lines 91–92); on a zero exit it
reaches line 94, `os.path.basename(repo_path.rstrip(os.sep))`, and
raises `AttributeError` (`Path` has no `rstrip`) before any stdout line
is examined, so the parse loop never runs for either argument type. -/
def get_commit_stats (repoPath : RepoPath) (result : SubprocResult) :
    Except PyError Commits :=
  match repoPath with
  | RepoPath.strArg _ => Except.error PyError.attributeError
  | RepoPath.pathArg _ =>
    if result.returncode ≠ 0 then Except.ok []
    else Except.error PyError.attributeError

/- ## Aggregator: `aggregate_by_period` -/

/-- Key order used by `dict(sorted(counts.items()))` (keys are distinct,
so tuple comparison reduces to code-point comparison of the key strings,
which is `≤` on `String`). -/
def keyLe (a b : String × Nat) : Prop := a.1.data ≤ b.1.data

instance : DecidableRel keyLe := fun a b => by unfold keyLe; infer_instance

instance : IsTotal (String × Nat) keyLe := ⟨fun a b => le_total a.1.data b.1.data⟩

instance : IsTrans (String × Nat) keyLe :=
  ⟨fun _ _ _ h1 h2 => le_trans h1 h2⟩

/-- `aggregate_by_period(commits, period)`: count commits per period key
(`defaultdict(int)` insertion order), then `dict(sorted(counts.items()))`.
`make_period_key` raises `ValueError` on a malformed commit date. -/
def aggregate_by_period (commits : Commits) (period : Period) :
    Except PyError (List (String × Nat)) := do
  let counts ← commits.foldlM
    (fun acc c => do
      let k ← makePeriodKey c period
      pure (bump acc k))
    []
  pure (List.insertionSort keyLe counts)

/- ## Exporters -/

/-- Case-folded string (`str.lower()`), code-point-wise. -/
def strLower (s : String) : String := String.mk (s.data.map Char.toLower)

/-- `s.endswith(suffix)`. -/
def endsWithB (s suffix : String) : Bool := suffix.data.isSuffixOf s.data

/-- Content of a written export file: the JSON document is the commit
sequence (field order `repo_name, hash, author, date, subject`), the CSV
document is its list of rows. -/
inductive ExportContent where
  | jsonDoc (commits : Commits)
  | csvDoc (rows : List (List String))
deriving DecidableEq

/-- The CSV header row used by both CSV writers. -/
def csvHeader : List String := ["repo_name", "hash", "author", "date", "subject"]

/-- One CSV data row (`writer.writerow(asdict(commit))`). -/
def csvRow (c : Commit) : List String :=
  [c.repo_name, c.hash, c.author, c.date, c.subject]

/-- `exporters.export_json`: unconditionally opens the file and dumps
the commit list (an empty list yields a `[]` document). -/
def export_json (commits : Commits) (out : String) : String × ExportContent :=
  (out, ExportContent.jsonDoc commits)

/-- `exporters.export_csv`: unconditionally opens the file, writes the
header, then one row per commit — it has no empty-input guard. -/
def export_csv (commits : Commits) (out : String) : String × ExportContent :=
  (out, ExportContent.csvDoc (csvHeader :: commits.map csvRow))

/-- `git_report.export_data(commits, fmt, output_file)`.  The result is
`none` when no file is written (the CSV empty-list no-op), `some` with
the final path and the written content otherwise;
`ValueError("Unsupported export file format")` for other formats. -/
def export_data (commits : Commits) (fmt output_file : String) :
    Except PyError (Option (String × ExportContent)) :=
  let out := if !endsWithB (strLower output_file) ("." ++ fmt) then
    output_file ++ "." ++ fmt else output_file
  if fmt = "json" then
    Except.ok (some (out, ExportContent.jsonDoc commits))
  else if fmt = "csv" then
    if commits.isEmpty then Except.ok none
    else Except.ok (some (out, ExportContent.csvDoc (csvHeader :: commits.map csvRow)))
  else Except.error (PyError.valueError "Unsupported export file format")

/- ## Plotters -/

/-- `sorted` on strings: code-point (lexicographic) order. -/
def strLe (a b : String) : Prop := a.data ≤ b.data

instance : DecidableRel strLe := fun a b => by unfold strLe; infer_instance

/-- Deduplicating insertion used to model the `set` of repo names
(membership only; the set is sorted before use). -/
def insertNew (l : List String) (x : String) : List String :=
  if l.contains x then l else l ++ [x]

/-- What the stacked chart of `plot_commits` is built from just before
`plt.savefig`: sorted period labels, sorted repo names, one row of
per-period heights per repo, and the title. -/
structure StackedPlot where
  periods : List String
  repos : List String
  heights : List (List Nat)
  title : String
deriving DecidableEq

/-- The computation shared verbatim by `plotters.plot_commits` and
`git_report.plot_commits` for a non-empty commit list: dense skeleton
from the first and last commit, fill pass, sorted periods and repos,
stacked heights. -/
def plotCommitsCore (c0 : Commit) (commits : Commits) (period : Period) :
    Except PyError StackedPlot := do
  let skel ← generate_dates c0 (commits.getLastD c0) period 1
  let data ← fillSeries skel commits period
  let repos := commits.foldl (fun acc c => insertNew acc c.repo_name) []
  let periods := List.insertionSort strLe (data.map Prod.fst)
  let reposSorted := List.insertionSort strLe repos
  pure ⟨periods, reposSorted,
    reposSorted.map (fun r => periods.map (fun k => getCount data k r)),
    "Commits per Repository (" ++ periodName period ++ ") by <" ++ c0.author ++ ">"⟩
where
  periodName : Period → String
    | Period.DAY => "Day"
    | Period.WEEK => "Week"
    | Period.MONTH => "Month"

/-- `plotters.plot_commits`: raises `ValueError("No commits provided")`
on an empty list, otherwise renders (success = the chart data reaching
`plt.savefig`). -/
def plottersPlotCommits (commits : Commits) (period : Period) :
    Except PyError StackedPlot :=
  match commits with
  | [] => Except.error (PyError.valueError "No commits provided")
  | c0 :: _ => plotCommitsCore c0 commits period

/-- `git_report.plot_commits`: identical body except the guard — an
empty list returns silently (`none`: no file written, no error). -/
def gitReportPlotCommits (commits : Commits) (period : Period) :
    Except PyError (Option StackedPlot) :=
  match commits with
  | [] => Except.ok none
  | c0 :: _ => (plotCommitsCore c0 commits period).map some

/-- What the pie chart of `plot_summary` is built from: labels and
values sorted ascending by count, and the title (which formats the first
and last commit dates with the DAY period key). -/
structure SummaryPlot where
  labels : List String
  values : List Nat
  title : String
deriving DecidableEq

/-- Count order used by `sorted(data.items(), key=lambda item: item[1])`. -/
def countLe (a b : String × Nat) : Prop := a.2 ≤ b.2

instance : DecidableRel countLe := fun a b => by unfold countLe; infer_instance

/-- The computation shared by `plotters.plot_summary` and
`git_report.plot_summary` for a non-empty commit list. -/
def plotSummaryCore (c0 : Commit) (commits : Commits) :
    Except PyError SummaryPlot := do
  let counts := commits.foldl (fun acc c => bump acc c.repo_name) []
  let data := List.insertionSort countLe counts
  let k0 ← makePeriodKey c0 Period.DAY
  let k1 ← makePeriodKey (commits.getLastD c0) Period.DAY
  pure ⟨data.map Prod.fst, data.map Prod.snd,
    "Commits per Repository (from " ++ k0 ++ " to " ++ k1 ++ ") by <" ++
      c0.author ++ ">"⟩

/-- `plotters.plot_summary`: `ValueError("No commits provided")` on an
empty list. -/
def plottersPlotSummary (commits : Commits) : Except PyError SummaryPlot :=
  match commits with
  | [] => Except.error (PyError.valueError "No commits provided")
  | c0 :: _ => plotSummaryCore c0 commits

/-- `git_report.plot_summary`: identical body except the guard — an
empty list returns silently. -/
def gitReportPlotSummary (commits : Commits) :
    Except PyError (Option SummaryPlot) :=
  match commits with
  | [] => Except.ok none
  | c0 :: _ => (plotSummaryCore c0 commits).map some

/- ## Aggregation lemmas -/

theorem aggregate_fold_sum (period : Period) :
    ∀ (commits : Commits) (acc res : List (String × Nat)),
      commits.foldlM
        (fun acc c => do
          let k ← makePeriodKey c period
          pure (bump acc k)) acc = Except.ok res →
      sumInner res = sumInner acc + commits.length := by
  intro commits
  induction commits with
  | nil =>
    intro acc res h
    simp only [List.foldlM_nil, pure, Except.pure] at h
    cases h
    simp
  | cons c cs ih =>
    intro acc res h
    rw [List.foldlM_cons] at h
    cases hk : makePeriodKey c period with
    | error e =>
      rw [hk] at h
      simp [Bind.bind, Except.bind] at h
    | ok k =>
      rw [hk] at h
      simp only [Bind.bind, Except.bind, pure, Except.pure] at h
      have := ih (bump acc k) res h
      rw [sumInner_bump] at this
      simp only [List.length_cons]
      omega

/- ## Claim theorems -/

/-- C1: evaluation of `get_commit_stats` at the failing inputs.  With
the annotated/tested `Path` argument, a non-zero subprocess exit (128,
e.g. a non-repository path) yields `Except.ok []` — a silent empty
success instead of the `ExternalToolError` that the claim, §4.2 of the
spec, and the repository's own unit test `test_git_stats_error` (which
expects a `RuntimeError`) all require.  The claim's successful-but-empty
half also fails: a zero exit with no output lines raises
`AttributeError` at line 94 (`repo_path.rstrip` — `Path` has no such
attribute) instead of returning an empty list, and `main()`'s actual
`str` argument raises `AttributeError` already at line 79
(`repo_path.absolute()`). -/
theorem c1_exit_code_contract_broken :
    get_commit_stats (RepoPath.pathArg "/") ⟨128, []⟩ = Except.ok [] ∧
    get_commit_stats (RepoPath.pathArg "/") ⟨0, []⟩ =
      Except.error PyError.attributeError ∧
    get_commit_stats (RepoPath.strArg "/") ⟨0, []⟩ =
      Except.error PyError.attributeError := by decide

/-- C4: `periodKey(1990-02-01, DAY) = "1990-02-01"`,
`periodKey(1990-02-01, WEEK) = "1990-W05"`,
`periodKey(1990-02-01, MONTH) = "1990-02"`, in the shared core and in
both `format_period` copies; and the WEEK key follows true ISO-8601
week-date rules: for 2019-12-30 the ISO year in the key is 2020 even
though the calendar year is 2019. -/
theorem c4_period_key_values :
    formatPeriod ⟨1990, 2, 1⟩ Period.DAY = "1990-02-01" ∧
    formatPeriod ⟨1990, 2, 1⟩ Period.WEEK = "1990-W05" ∧
    formatPeriod ⟨1990, 2, 1⟩ Period.MONTH = "1990-02" ∧
    gitReportFormatPeriod (some ⟨1990, 2, 1⟩) (some Period.WEEK) =
      Except.ok "1990-W05" ∧
    plottersFormatPeriod (some ⟨1990, 2, 1⟩) (some Period.WEEK) =
      Except.ok "1990-W05" ∧
    formatPeriod ⟨2019, 12, 30⟩ Period.WEEK = "2020-W01" ∧
    (isocalendar ⟨2019, 12, 30⟩).1 = 2020 ∧ (Date.mk 2019 12 30).y = 2019 := by
  decide

/-- C5: evaluation of both `format_period` implementations at the
failing input.  An unrecognized period raises
`ValueError("Unsupported period")` in both copies, and `plotters.py`
raises `ValueError("No date provided")` for an absent date — but the
`git_report.py` copy dispatches on the period first, so an absent date
reaches `date.strftime` / `date.isocalendar` and raises
`AttributeError`, not the `MissingDateError` (`ValueError`) that the
claim and the unit test `test_format_period_error` require. -/
theorem c5_missing_date_diverges :
    gitReportFormatPeriod none (some Period.DAY) =
      Except.error PyError.attributeError ∧
    gitReportFormatPeriod none (some Period.WEEK) =
      Except.error PyError.attributeError ∧
    plottersFormatPeriod none (some Period.DAY) =
      Except.error (PyError.valueError "No date provided") ∧
    gitReportFormatPeriod (some ⟨1990, 1, 1⟩) none =
      Except.error (PyError.valueError "Unsupported period") ∧
    plottersFormatPeriod (some ⟨1990, 1, 1⟩) none =
      Except.error (PyError.valueError "Unsupported period") := by decide

/-- C6: the exclusion scenario (`root/a/.git`, `root/a/vendor/.git`,
`root/excluded/.git` with pattern `excluded|vendor`) yields exactly
`root/a`; in general no yielded repository root has any visited ancestor
(itself included) matching an exclusion pattern — exclusion prunes the
whole subtree — and, in a well-formed tree (distinct sibling names), no
yielded root is nested beneath another, since the walker does not
descend below a yielded root. -/
theorem c6_locator_exclusion_pruning_no_nesting :
    find_git_repos ["root"] scenTree [scenPat] = [["root", "a"]] ∧
    (∀ (pats : List ExPattern) (path : List String) (t : FSTree)
      (p : List String), p ∈ find_git_repos path t pats →
      ∀ q, pathLe path q → pathLe q p →
      ∀ pat ∈ pats, pat (joinPath q) = false) ∧
    (∀ (pats : List ExPattern) (path : List String) (t : FSTree),
      wfTree t = true →
      ∀ p ∈ find_git_repos path t pats, ∀ q ∈ find_git_repos path t pats,
      p ≠ q → ¬ pathLe p q) := by
  refine ⟨by decide, ?_, ?_⟩
  · intro pats path t p hp q hq1 hq2 pat hpat
    exact walkTree_unexcluded pats t path p hp q hq1 hq2 pat hpat
  · intro pats path t hwf p hp q hq hne
    exact walkTree_no_nesting pats t path p q hwf hp hq hne

/-- C6 witness: in the scenario the yielded root `root/a` matches no
pattern at any ancestor, and in a two-repository tree the two distinct
yielded roots are not nested. -/
theorem c6_locator_witness :
    scenPat (joinPath ["root", "a"]) = false ∧
    ¬ pathLe ["root", "x"] ["root", "y"] :=
  ⟨c6_locator_exclusion_pruning_no_nesting.2.1 [scenPat] ["root"] scenTree
      ["root", "a"] (by decide) ["root", "a"] ⟨["a"], rfl⟩ ⟨[], rfl⟩
      scenPat (by simp),
   c6_locator_exclusion_pruning_no_nesting.2.2 [] ["root"] twoRepoTree
      (by decide) ["root", "x"] (by decide) ["root", "y"] (by decide)
      (by decide)⟩

/-- C7 counterexample: on the empty commit list the plotting functions
embedded in the reporting entry point do NOT fail — they return
silently (no error is raised and no output file is produced), refuting
the claim that both plotting operations fail with `EmptyDatasetError`
in every implementation. -/
theorem c7_entrypoint_plots_silent_on_empty :
    gitReportPlotCommits [] Period.DAY = Except.ok none ∧
    gitReportPlotSummary [] = Except.ok none := by decide

/-- C7 (amended): the shared `plotters.py` implementations of both chart
kinds fail with `EmptyDatasetError` (`ValueError("No commits provided")`)
on the empty commit list, producing no output file; the near-identical
copies embedded in `git_report.py` instead return silently without
writing a file (still never producing an output file). -/
theorem c7_empty_dataset_behavior :
    (∀ p, plottersPlotCommits [] p =
      Except.error (PyError.valueError "No commits provided")) ∧
    plottersPlotSummary [] =
      Except.error (PyError.valueError "No commits provided") ∧
    (∀ p, gitReportPlotCommits [] p = Except.ok none) ∧
    gitReportPlotSummary [] = Except.ok none := by
  exact ⟨fun p => rfl, rfl, fun p => rfl, rfl⟩

/-- C8 counterexample: the standalone `exporters.export_csv` has no
empty-input guard — called with the empty commit list it writes a file
consisting of the header row, refuting the claim that the tabular form
writes no file at all for an empty list. -/
theorem c8_export_csv_writes_header_only_file :
    export_csv [] "out.csv" = ("out.csv", ExportContent.csvDoc [csvHeader]) := by
  decide

/-- C8 (amended): in `git_report.export_data` the CSV branch with an
empty commit list writes no file (a no-op, not an error) while the JSON
branch still writes a document containing the empty sequence; the
standalone `exporters.export_csv`, however, lacks the guard and writes a
header-only file (and `exporters.export_json` writes the empty
sequence). -/
theorem c8_export_empty_behavior :
    (∀ f, export_data [] "csv" f = Except.ok none) ∧
    export_data [] "json" "out" =
      Except.ok (some ("out.json", ExportContent.jsonDoc [])) ∧
    export_csv [] "out" = ("out", ExportContent.csvDoc [csvHeader]) ∧
    export_json [] "out" = ("out", ExportContent.jsonDoc []) := by
  exact ⟨fun f => rfl, by decide, by decide, rfl⟩

/-- C9: evaluation at the failing input.  A zero-exit extraction whose
stdout holds a line with a malformed date field produces neither a fatal
parse error for that line, nor a validated Commit, nor a skip: the
extractor raises `AttributeError` at line 94 (`repo_path.rstrip` — the
annotated/tested `Path` type has no such attribute; `main()`'s actual
`str` argument already fails at line 79, `repo_path.absolute()`) before
any stdout line is examined, so extraction never returns a Commit record
at all.  Moreover even the parse loop as written — unreachable at
runtime — would accept the line and store the raw, unparseable date
rather than fail on it. -/
theorem c9_extraction_crashes_before_parsing :
    get_commit_stats (RepoPath.pathArg "path/proj")
        ⟨0, ["deadbeefcafebabe|dev@example.com|2024-13-45|fix"]⟩ =
      Except.error PyError.attributeError ∧
    get_commit_stats (RepoPath.strArg "path/proj")
        ⟨0, ["deadbeefcafebabe|dev@example.com|2024-13-45|fix"]⟩ =
      Except.error PyError.attributeError ∧
    parseStdoutLines "proj"
        ["deadbeefcafebabe|dev@example.com|2024-13-45|fix"] =
      Except.ok [⟨"proj", "deadbee", "dev@example.com", "2024-13-45", "fix"⟩] ∧
    parseDate "2024-13-45" = none := by decide

/-- C2 counterexample: with commits on 2024-01-07 (a Sunday, ISO week
2024-W01) and 2024-01-08 (a Monday, ISO week 2024-W02) — first ≤ last —
the WEEK skeleton produced by `generate_dates` with interval 1 steps in
7-day jumps from the first date and stops past the end date, so it
contains only "2024-W01": the period of the last commit is missing,
refuting the claim that the skeleton contains a key for every period
between the first and last date inclusive for every granularity. -/
theorem c2_week_skeleton_misses_final_period :
    dateLex ⟨2024, 1, 7⟩ ⟨2024, 1, 8⟩ ∧
    generate_dates ⟨"r", "h", "a", "2024-01-07", "s"⟩
        ⟨"r", "h", "a", "2024-01-08", "s"⟩ Period.WEEK 1 =
      Except.ok [("2024-W01", [])] ∧
    makePeriodKey ⟨"r", "h", "a", "2024-01-08", "s"⟩ Period.WEEK =
      Except.ok "2024-W02" ∧
    hasKey [("2024-W01", [])] "2024-W02" = false := by decide

/-- C2 (amended): under DAY granularity the interval-1 skeleton contains
a key for every period between the first and the last commit date
inclusive; under WEEK and MONTH the period containing the last date may
be absent (the fill pass creates any missing key on demand through the
zero default); and after the fill pass each period entry's per-repo map
sums to the number of commits whose period key equals that entry's key
(entries only in the skeleton sum to zero). -/
theorem c2_day_coverage_and_fill_sums :
    (∀ (start endC : Commit) (skel : SeriesData) (sd ed dt : VDate),
      parseDate start.date = some sd →
      parseDate endC.date = some ed →
      generate_dates start endC Period.DAY 1 = Except.ok skel →
      dateLex sd.val dt.val → dateLex dt.val ed.val →
      hasKey skel (formatPeriod dt.val Period.DAY) = true) ∧
    (∀ (start endC : Commit) (period : Period) (commits : Commits)
      (skel data : SeriesData) (k : String),
      generate_dates start endC period 1 = Except.ok skel →
      fillSeries skel commits period = Except.ok data →
      sumAt data k = keyCount commits period k) := by
  constructor
  · intro start endC skel sd ed dt hsd hed hgen h1 h2
    unfold generate_dates at hgen
    rw [hsd, hed] at hgen
    cases hgen
    exact genLoop_day_coverage _ ed sd [] dt (le_refl _) h1 h2
  · intro start endC period commits skel data k hgen hfill
    have hempty : allEmpty skel = true := by
      unfold generate_dates at hgen
      cases hsd : parseDate start.date with
      | none => rw [hsd] at hgen; cases hgen
      | some sd =>
        rw [hsd] at hgen
        cases hed : parseDate endC.date with
        | none => rw [hed] at hgen; cases hgen
        | some ed =>
          rw [hed] at hgen
          cases hgen
          exact genLoop_allEmpty _ _ _ _ _ _ rfl
    have := fillSeries_sumAt period commits skel data hfill k
    rw [sumAt_allEmpty skel k hempty] at this
    omega

/-- C2 witness: DAY coverage on the span 2024-01-01..2024-01-03 contains
the commit-free middle day, and the filled series over an out-of-order
pair (whose skeleton is empty) sums to the per-key commit counts. -/
theorem c2_day_coverage_witness :
    hasKey [("2024-01-01", []), ("2024-01-02", []), ("2024-01-03", [])]
      (formatPeriod ⟨2024, 1, 2⟩ Period.DAY) = true ∧
    sumAt [("2024-01-05", [("A", 1)]), ("2024-01-01", [("B", 1)])]
        "2024-01-01" =
      keyCount [⟨"A", "h1", "a", "2024-01-05", "s"⟩,
        ⟨"B", "h2", "a", "2024-01-01", "s"⟩] Period.DAY "2024-01-01" :=
  ⟨c2_day_coverage_and_fill_sums.1
      ⟨"r", "h", "a", "2024-01-01", "s"⟩ ⟨"r", "h", "a", "2024-01-03", "s"⟩
      [("2024-01-01", []), ("2024-01-02", []), ("2024-01-03", [])]
      ⟨⟨2024, 1, 1⟩, by decide⟩ ⟨⟨2024, 1, 3⟩, by decide⟩
      ⟨⟨2024, 1, 2⟩, by decide⟩
      (by decide) (by decide) (by decide) (by decide) (by decide),
   c2_day_coverage_and_fill_sums.2
      ⟨"A", "h1", "a", "2024-01-05", "s"⟩ ⟨"B", "h2", "a", "2024-01-01", "s"⟩
      Period.DAY
      [⟨"A", "h1", "a", "2024-01-05", "s"⟩, ⟨"B", "h2", "a", "2024-01-01", "s"⟩]
      [] [("2024-01-05", [("A", 1)]), ("2024-01-01", [("B", 1)])]
      "2024-01-01" (by decide) (by decide)⟩

/-- C10: in the stacked-plot aggregation, the `defaultdict` skeleton lets
the fill pass increment a cell even for period keys absent from the
skeleton, so for every non-empty commit list (sorted or not — the
skeleton is built from `commits[0]` and `commits[-1]` as given) the
filled counts over all period keys and repos sum to the length of the
commit list. -/
theorem c10_fill_total_is_commit_count (commits : Commits) (period : Period)
    (hne : commits ≠ []) (skel data : SeriesData)
    (h1 : generate_dates (commits.head hne) (commits.getLast hne) period 1 =
      Except.ok skel)
    (h2 : fillSeries skel commits period = Except.ok data) :
    totalSum data = commits.length := by
  have hempty : allEmpty skel = true := by
    unfold generate_dates at h1
    cases hsd : parseDate (commits.head hne).date with
    | none => rw [hsd] at h1; cases h1
    | some sd =>
      rw [hsd] at h1
      cases hed : parseDate (commits.getLast hne).date with
      | none => rw [hed] at h1; cases h1
      | some ed =>
        rw [hed] at h1
        cases h1
        exact genLoop_allEmpty _ _ _ _ _ _ rfl
  have := fillSeries_totalSum period commits skel data h2
  rw [totalSum_allEmpty skel hempty] at this
  omega

/-- C10 witness: an unsorted two-commit list whose skeleton is therefore
empty (first date after last date) still fills to a total of 2. -/
theorem c10_fill_total_witness :
    totalSum [("2024-01-05", [("A", 1)]), ("2024-01-01", [("B", 1)])] =
      ([⟨"A", "h1", "a", "2024-01-05", "s"⟩,
        ⟨"B", "h2", "a", "2024-01-01", "s"⟩] : Commits).length :=
  c10_fill_total_is_commit_count
    [⟨"A", "h1", "a", "2024-01-05", "s"⟩, ⟨"B", "h2", "a", "2024-01-01", "s"⟩]
    Period.DAY (by simp) []
    [("2024-01-05", [("A", 1)]), ("2024-01-01", [("B", 1)])]
    (by decide) (by decide)

/-- C3: for every commit list whose dates all parse (operationalized as
the aggregation succeeding, since `make_period_key` raises exactly on an
unparseable date) and every period granularity, the values of
`aggregate_by_period` sum to the length of the commit list, the entries
are sorted ascending by key string, and the empty list yields the empty
mapping. -/
theorem c3_aggregate_count_preserving (commits : Commits) (period : Period)
    (res : List (String × Nat))
    (h : aggregate_by_period commits period = Except.ok res) :
    (res.map Prod.snd).sum = commits.length ∧ List.Sorted keyLe res ∧
    aggregate_by_period ([] : Commits) period = Except.ok [] := by
  unfold aggregate_by_period at h
  cases hf : commits.foldlM
      (fun acc c => do
        let k ← makePeriodKey c period
        pure (bump acc k)) ([] : List (String × Nat)) with
  | error e =>
    rw [hf] at h
    simp [Bind.bind, Except.bind] at h
  | ok counts =>
    rw [hf] at h
    simp only [Bind.bind, Except.bind, pure, Except.pure] at h
    cases h
    refine ⟨?_, List.sorted_insertionSort keyLe counts, rfl⟩
    have hperm : List.Perm (List.insertionSort keyLe counts) counts :=
      List.perm_insertionSort keyLe counts
    have hsum : ((List.insertionSort keyLe counts).map Prod.snd).sum =
        (counts.map Prod.snd).sum := (hperm.map Prod.snd).sum_eq
    have hcount := aggregate_fold_sum period commits [] counts hf
    simp only [sumInner] at hcount
    simp only [hsum, hcount]
    simp

/-- C3 witness: the spec's end-to-end example, three commits aggregated
by DAY. -/
theorem c3_aggregate_witness :
    (([("2024-01-01", 1), ("2024-01-03", 1), ("2024-01-10", 1)] :
        List (String × Nat)).map Prod.snd).sum =
      ([⟨"RepoA", "h1", "a", "2024-01-03", "s"⟩,
        ⟨"RepoA", "h2", "a", "2024-01-01", "s"⟩,
        ⟨"RepoB", "h3", "a", "2024-01-10", "s"⟩] : Commits).length ∧
    List.Sorted keyLe
      [("2024-01-01", 1), ("2024-01-03", 1), ("2024-01-10", 1)] ∧
    aggregate_by_period ([] : Commits) Period.DAY = Except.ok [] :=
  c3_aggregate_count_preserving
    [⟨"RepoA", "h1", "a", "2024-01-03", "s"⟩,
     ⟨"RepoA", "h2", "a", "2024-01-01", "s"⟩,
     ⟨"RepoB", "h3", "a", "2024-01-10", "s"⟩]
    Period.DAY
    [("2024-01-01", 1), ("2024-01-03", 1), ("2024-01-10", 1)]
    (by decide)

end GitReport
